import Mathlib

/-!
# The primary-key index of the ORM table layer

A shallow embedding of `orm/model/ormtable/primary_key.go` and of the `indexer`
contract of `orm/model/ormtable/index.go`.

* Go's `error` is `Option E` (`none` is `nil`); a Go pair `(x, err)` is a Lean pair.
* The two stores of the backend are threaded as explicit state (`Stores`).
* Every call the code makes on a collaborator (backend resolver, key codec, store,
  hook sink, batch writer, indexer, iterator constructor) is recorded, in order, in a
  call log, so that "is not called" and "is called before" are statements about lists.
* The collaborators whose code is not part of the two source files are parameters
  (codec, resolvers, hook sink, indexers, iterator constructors) or are modelled from
  the specification (key-value store, batch writer).
-/

namespace ormtable

/-! ## Computations over a state that log their calls -/

/-- What running a computation gives: the returned value, the state afterwards and
the calls made, oldest first. -/
structure Outcome (σ ε α : Type) where
  val : α
  state : σ
  log : List ε

/-- A computation over a state `σ` that records events of type `ε`. -/
def Act (σ ε α : Type) : Type := σ → Outcome σ ε α

/-- Return a value: no state change, no call. -/
def Act.pure {σ ε α : Type} (a : α) : Act σ ε α :=
  fun s => ⟨a, s, []⟩

/-- Sequencing: the second computation starts in the state the first one left, and the
logs are concatenated. -/
def Act.bind {σ ε α β : Type} (x : Act σ ε α) (f : α → Act σ ε β) : Act σ ε β :=
  fun s => ⟨(f (x s).val (x s).state).val, (f (x s).val (x s).state).state,
    (x s).log ++ (f (x s).val (x s).state).log⟩

instance {σ ε : Type} : Monad (Act σ ε) where
  pure := Act.pure
  bind := Act.bind

/-- Record one call. -/
def emit {σ ε : Type} (e : ε) : Act σ ε Unit :=
  fun s => ⟨(), s, [e]⟩

/-! ## Stores -/

/-- Go `[]byte`. -/
abbrev Bytes := List Nat

/-- A buffered mutation of a store: `Set(key, value)` or `Delete(key)`. -/
inductive WriteOp where
  | set (key value : Bytes)
  | delete (key : Bytes)
deriving DecidableEq, Repr

/-- The key a mutation is issued on. -/
def WriteOp.key : WriteOp → Bytes
  | .set k _ => k
  | .delete k => k

/-- Modelled from the spec: the physical key-value store behind `kvstore.Reader` and
`kvstore.Writer` (§6: `Has(key) -> bool`, `Get(key) -> bytes | absent`, `Delete(key)`,
`Set(key, value)`), which is not among the source files. `entries` is the content
(`none` is an absent key, for which Go's `Get` returns `nil`). The Go signatures also
return an `error`: `readFault` and `writeFault` give the keys at which a read or a
write of this store fails; a store that never fails has both constantly `none`. -/
structure KVStore (E : Type) where
  entries : Bytes → Option Bytes
  readFault : Bytes → Option E
  writeFault : Bytes → Option E

/-- Modelled from the spec: the reader's `Get(key)` of the key-value store (§6,
`Get(key) -> bytes | absent`): `(bytes, nil)`, `(nil, nil)` for an absent key, or the
read error. -/
def KVStore.Get {E : Type} (s : KVStore E) (key : Bytes) : Except E (Option Bytes) :=
  match s.readFault key with
  | some err => .error err
  | none => .ok (s.entries key)

/-- Modelled from the spec: the reader's `Has(key)` of the key-value store (§6,
`Has(key) -> bool`): whether the key has an entry, or the read error. -/
def KVStore.Has {E : Type} (s : KVStore E) (key : Bytes) : Bool × Option E :=
  match s.readFault key with
  | some err => (false, some err)
  | none => ((s.entries key).isSome, none)

/-- Modelled from the spec: the content of the key-value store after one mutation
(§6, `Delete(key)`, `Set(key, value)`). -/
def KVStore.apply {E : Type} (s : KVStore E) : WriteOp → KVStore E
  | .set k v => { s with entries := fun k2 => if k2 = k then some v else s.entries k2 }
  | .delete k => { s with entries := fun k2 => if k2 = k then none else s.entries k2 }

/-- Modelled from the spec: applying buffered mutations to the key-value store "in
the order they were issued" (§4.4); the first write fault stops the flush with its
error. -/
def KVStore.flush {E : Type} (s : KVStore E) : List WriteOp → Except E (KVStore E)
  | [] => .ok s
  | op :: ops =>
    match s.writeFault op.key with
    | some err => .error err
    | none => KVStore.flush (s.apply op) ops

/-- The state of a backend: the commitment store and the index store. -/
structure Stores (E : Type) where
  commitment : KVStore E
  index : KVStore E

/-! ## Collaborators -/

/-- The mutation-hook sink of a backend; only the pre-delete notification is used by
the primary-key index. -/
structure Hooks (M E : Type) where
  OnDelete : M → Option E

/-- The interface `ReadBackend`: the read-only handle of a backend. The stores it reads are the
threaded `Stores`. -/
inductive ReadBackend where
  | handle
deriving DecidableEq, Repr

/-- The interface `Backend`: the read-write handle of a backend. It embeds the read-only handle and
carries the optional hook sink returned by `getHooks()` (`none` is Go's `nil`). -/
structure Backend (M E : Type) where
  readBackend : ReadBackend
  getHooks : Option (Hooks M E)

/-- The embedded `ormkv.PrimaryKeyCodec`, the key/value codec (external, a parameter).
`Unmarshal` writes into the message it is given, so it returns the message afterwards
together with its error. `newMessage` is `MessageType().New().Interface()`. -/
structure PrimaryKeyCodec (V M E : Type) where
  EncodeKey : List V → Except E Bytes
  CheckValidRangeIterationKeys : List V → List V → Option E
  Unmarshal : List V → Bytes → M → M × Option E
  GetFieldNames : List String
  newMessage : M

/-- The `indexer` interface of index.go. A callback receives a `kvstore.Writer`, on
which it can only issue `Set` and `Delete`, and a message: it is the list of mutations
it issues on that writer and the error it returns. -/
structure indexer (M E : Type) where
  onInsert : M → List WriteOp × Option E
  onUpdate : M → M → List WriteOp × Option E
  onDelete : M → List WriteOp × Option E

/-- The struct `primaryKeyIndex`. -/
structure primaryKeyIndex (C V M E : Type) extends PrimaryKeyCodec V M E where
  indexers : List (indexer M E)
  getBackend : C → Except E (Backend M E)
  getReadBackend : C → Except E ReadBackend

/-- The calls the primary-key index makes on its collaborators. -/
inductive Event (C V M E O : Type) where
  | getBackend (ctx : C)
  | getReadBackend (ctx : C)
  | encodeKey (values : List V)
  | checkValidRangeIterationKeys (start stop : List V)
  | unmarshal (keyValues : List V) (bz : Bytes)
  | storeGet (key : Bytes)
  | storeHas (key : Bytes)
  | hookOnDelete (msg : M) (err : Option E)
  | newWriter
  | writerDelete (key : Bytes)
  | onDelete (i : Nat) (msg : M) (err : Option E)
  | write (commitmentBuf indexBuf : List WriteOp) (err : Option E)
  | close
  | newPrefixIterator (prefixBz : Bytes) (options : O)
  | newRangeIterator (startBz endBz : Bytes) (fullEndKey : Bool) (options : O)
deriving DecidableEq, Repr

/-- The package-level functions the index calls that are not in the source files:
`encodeutil.ValuesOf` (from Go values to `protoreflect.Value`s) and the two iterator
constructors of the package, which build an iterator over a store reader. -/
structure Pkg (A V E O I : Type) where
  ValuesOf : List A → List V
  prefixIterator : KVStore E → Bytes → O → Option I × Option E
  rangeIterator : KVStore E → Bytes → Bytes → Bool → O → Option I × Option E

/-! ## The batch writer -/

/-- Modelled from the spec: the batch writer of §4.4 (`newBatchIndexCommitmentWriter`
and its methods are not among the source files). "All write calls through the writer
are buffered, not applied": the writer is the two buffers, in issue order. -/
structure batchIndexCommitmentWriter where
  commitmentBuf : List WriteOp
  indexBuf : List WriteOp
deriving DecidableEq, Repr

/-- Modelled from the spec: acquiring a batch writer from a backend (§4.4); both
buffers start empty. -/
def newBatchIndexCommitmentWriter {C V M E O : Type} (_backend : Backend M E) :
    Act (Stores E) (Event C V M E O) batchIndexCommitmentWriter := do
  emit Event.newWriter
  pure ⟨[], []⟩

/-- Modelled from the spec: `writer.getCommitmentStore().Delete(key)` (§4.4): the
delete is appended to the commitment buffer, nothing is applied, and the call
returns `nil`. -/
def batchIndexCommitmentWriter.commitmentStoreDelete {C V M E O : Type}
    (w : batchIndexCommitmentWriter) (key : Bytes) :
    Act (Stores E) (Event C V M E O) (Option E × batchIndexCommitmentWriter) := do
  emit (Event.writerDelete key)
  pure (none, { w with commitmentBuf := w.commitmentBuf ++ [WriteOp.delete key] })

/-- Modelled from the spec: the mutations issued on `writer.getIndexStore()` (§4.4)
are appended to the index buffer. -/
def batchIndexCommitmentWriter.indexStoreIssue (w : batchIndexCommitmentWriter)
    (ops : List WriteOp) : batchIndexCommitmentWriter :=
  { w with indexBuf := w.indexBuf ++ ops }

/-- Modelled from the spec: what committing a batch does to the stores (§4.4, §7):
"applies all buffered commitment-store and index-store mutations in the order they
were issued (commitment-store entry first, then index-store entries)", and "any error
during batch commit must leave both stores as if the commit never started": an error
gives no new stores. -/
def Stores.commit {E : Type} (s : Stores E) (w : batchIndexCommitmentWriter) :
    Except E (Stores E) :=
  match s.commitment.flush w.commitmentBuf with
  | .error err => .error err
  | .ok c =>
    match s.index.flush w.indexBuf with
    | .error err => .error err
    | .ok i => .ok ⟨c, i⟩

/-- Modelled from the spec: `writer.Write()` (§4.4): "the single point of durability".
On success the stores become the committed ones and nothing stays buffered; on an
error they stay as they were. -/
def batchIndexCommitmentWriter.Write {C V M E O : Type} (w : batchIndexCommitmentWriter) :
    Act (Stores E) (Event C V M E O) (Option E × batchIndexCommitmentWriter) :=
  fun s =>
    match s.commit w with
    | .error err => ⟨(some err, w), s, [Event.write w.commitmentBuf w.indexBuf (some err)]⟩
    | .ok s2 => ⟨(none, ⟨[], []⟩), s2, [Event.write w.commitmentBuf w.indexBuf none]⟩

/-- Modelled from the spec: `writer.Close()` (§4.4): "discards any unapplied buffer";
it touches neither store. -/
def batchIndexCommitmentWriter.Close {C V M E O : Type} (_w : batchIndexCommitmentWriter) :
    Act (Stores E) (Event C V M E O) batchIndexCommitmentWriter := do
  emit Event.close
  pure ⟨[], []⟩

/-! ## primary_key.go -/

/-- The `backend.CommitmentStoreReader()` accessor: the commitment store as it is now. -/
def ReadBackend.CommitmentStoreReader {E ε : Type} (_b : ReadBackend) :
    Act (Stores E) ε (KVStore E) :=
  fun s => ⟨s.commitment, s, []⟩

/-- The method `getByKeyBytes` (primary_key.go, lines 149-160). -/
def primaryKeyIndex.getByKeyBytes {C V M E O : Type} (p : primaryKeyIndex C V M E)
    (store : ReadBackend) (key : Bytes) (keyValues : List V) (message : M) :
    Act (Stores E) (Event C V M E O) (Bool × Option E × M) := do
  let reader ← store.CommitmentStoreReader
  emit (Event.storeGet key)
  match reader.Get key with
  | .error err => pure (false, some err, message)
  | .ok none => pure (false, none, message)
  | .ok (some bz) =>
    emit (Event.unmarshal keyValues bz)
    pure (true, (p.Unmarshal keyValues bz message).2, (p.Unmarshal keyValues bz message).1)

/-- The method `get` (primary_key.go, lines 140-147). -/
def primaryKeyIndex.get {C V M E O : Type} (p : primaryKeyIndex C V M E)
    (backend : ReadBackend) (message : M) (values : List V) :
    Act (Stores E) (Event C V M E O) (Bool × Option E × M) := do
  emit (Event.encodeKey values)
  match p.EncodeKey values with
  | .error err => pure (false, some err, message)
  | .ok key => p.getByKeyBytes backend key values message

/-- The method `PrefixIterator` (primary_key.go, lines 22-34). -/
def primaryKeyIndex.PrefixIterator {C A V M E O I : Type} (d : Pkg A V E O I)
    (p : primaryKeyIndex C V M E) (ctx : C) (prefixKey : List V) (options : O) :
    Act (Stores E) (Event C V M E O) (Option I × Option E) := do
  emit (Event.getReadBackend ctx)
  match p.getReadBackend ctx with
  | .error err => pure (none, some err)
  | .ok backend =>
    emit (Event.encodeKey prefixKey)
    match p.EncodeKey prefixKey with
    | .error err => pure (none, some err)
    | .ok prefixBz =>
      let reader ← backend.CommitmentStoreReader
      emit (Event.newPrefixIterator prefixBz options)
      pure (d.prefixIterator reader prefixBz options)

/-- The method `RangeIterator` (primary_key.go, lines 36-60). The upper bound, `end` in
the source, is `stop` here (`end` is a keyword of Lean). -/
def primaryKeyIndex.RangeIterator {C A V M E O I : Type} (d : Pkg A V E O I)
    (p : primaryKeyIndex C V M E) (ctx : C) (start stop : List V) (options : O) :
    Act (Stores E) (Event C V M E O) (Option I × Option E) := do
  emit (Event.getReadBackend ctx)
  match p.getReadBackend ctx with
  | .error err => pure (none, some err)
  | .ok backend =>
    emit (Event.checkValidRangeIterationKeys start stop)
    match p.CheckValidRangeIterationKeys start stop with
    | some err => pure (none, some err)
    | none =>
      emit (Event.encodeKey start)
      match p.EncodeKey start with
      | .error err => pure (none, some err)
      | .ok startBz =>
        emit (Event.encodeKey stop)
        match p.EncodeKey stop with
        | .error err => pure (none, some err)
        | .ok endBz =>
          let fullEndKey := decide (p.GetFieldNames.length = stop.length)
          let reader ← backend.CommitmentStoreReader
          emit (Event.newRangeIterator startBz endBz fullEndKey options)
          pure (d.rangeIterator reader startBz endBz fullEndKey options)

/-- The method `Has` (primary_key.go, lines 64-76). The resolved read backend is named
`ctx` in the source. -/
def primaryKeyIndex.Has {C A V M E O I : Type} (d : Pkg A V E O I)
    (p : primaryKeyIndex C V M E) (context : C) (key : List A) :
    Act (Stores E) (Event C V M E O) (Bool × Option E) := do
  emit (Event.getReadBackend context)
  match p.getReadBackend context with
  | .error err => pure (false, some err)
  | .ok ctx =>
    emit (Event.encodeKey (d.ValuesOf key))
    match p.EncodeKey (d.ValuesOf key) with
    | .error err => pure (false, some err)
    | .ok keyBz =>
      let reader ← ctx.CommitmentStoreReader
      emit (Event.storeHas keyBz)
      pure (reader.Has keyBz)

/-- The method `Get` (primary_key.go, lines 78-85). The caller's message is written
in place by the decoder, so it is returned with the result. -/
def primaryKeyIndex.Get {C A V M E O I : Type} (d : Pkg A V E O I)
    (p : primaryKeyIndex C V M E) (ctx : C) (message : M) (values : List A) :
    Act (Stores E) (Event C V M E O) (Bool × Option E × M) := do
  emit (Event.getReadBackend ctx)
  match p.getReadBackend ctx with
  | .error err => pure (false, some err, message)
  | .ok backend => p.get backend message (d.ValuesOf values)

/-- The loop `for _, idx := range t.indexers` of `doDeleteByKey` (lines 130-135),
from the indexer at position `i` on: each indexer is called with the index-store view
of the writer and the message; the first error ends the loop. -/
def primaryKeyIndex.clearIndexes {C V M E O : Type} (msg : M) :
    Nat → List (indexer M E) → batchIndexCommitmentWriter →
    Act (Stores E) (Event C V M E O) (Option E × batchIndexCommitmentWriter)
  | _, [], writer => pure (none, writer)
  | i, idx :: rest, writer => do
    emit (Event.onDelete i msg (idx.onDelete msg).2)
    match (idx.onDelete msg).2 with
    | some err => pure (some err, writer.indexStoreIssue (idx.onDelete msg).1)
    | none =>
      primaryKeyIndex.clearIndexes msg (i + 1) rest (writer.indexStoreIssue (idx.onDelete msg).1)

/-- The part of `doDeleteByKey` that runs under `defer writer.Close()` (lines 122-137):
delete the object, clear the indexes, write. -/
def primaryKeyIndex.deleteObject {C V M E O : Type} (t : primaryKeyIndex C V M E)
    (writer : batchIndexCommitmentWriter) (pk : Bytes) (msg : M) :
    Act (Stores E) (Event C V M E O) (Option E × batchIndexCommitmentWriter) := do
  let r ← writer.commitmentStoreDelete pk
  match r.1 with
  | some err => pure (some err, r.2)
  | none =>
    let r2 ← primaryKeyIndex.clearIndexes msg 0 t.indexers r.2
    match r2.1 with
    | some err => pure (some err, r2.2)
    | none => r2.2.Write

/-- The method `doDeleteByKey` (primary_key.go, lines 91-138). The deferred
`writer.Close()` runs on every return after the writer is acquired. -/
def primaryKeyIndex.doDeleteByKey {C V M E O : Type} (t : primaryKeyIndex C V M E)
    (ctx : C) (primaryKeyValues : List V) :
    Act (Stores E) (Event C V M E O) (Option E) := do
  emit (Event.getBackend ctx)
  match t.getBackend ctx with
  | .error err => pure (some err)
  | .ok backend =>
    emit (Event.encodeKey primaryKeyValues)
    match t.EncodeKey primaryKeyValues with
    | .error err => pure (some err)
    | .ok pk =>
      let r ← t.getByKeyBytes backend.readBackend pk primaryKeyValues t.newMessage
      match r.2.1 with
      | some err => pure (some err)
      | none =>
        if !r.1 then pure none
        else
          let herr ← (match backend.getHooks with
            | none => pure none
            | some hooks => do
              emit (Event.hookOnDelete r.2.2 (hooks.OnDelete r.2.2))
              pure (hooks.OnDelete r.2.2))
          match herr with
          | some err => pure (some err)
          | none =>
            let writer ← newBatchIndexCommitmentWriter backend
            let res ← t.deleteObject writer pk r.2.2
            let _ ← res.2.Close
            pure res.1

/-- The method `DeleteByKey` (primary_key.go, lines 87-89). -/
def primaryKeyIndex.DeleteByKey {C A V M E O I : Type} (d : Pkg A V E O I)
    (t : primaryKeyIndex C V M E) (ctx : C) (primaryKeyValues : List A) :
    Act (Stores E) (Event C V M E O) (Option E) :=
  t.doDeleteByKey ctx (d.ValuesOf primaryKeyValues)

/-- The method `readValueFromIndexKey` (primary_key.go, lines 162-164). -/
def primaryKeyIndex.readValueFromIndexKey {C V M E : Type} (p : primaryKeyIndex C V M E)
    (_backend : ReadBackend) (primaryKey : List V) (value : Bytes) (message : M) :
    M × Option E :=
  p.Unmarshal primaryKey value message

/-! ## Vocabulary of the statements -/

/-- The mutations the indexers issue on the index-store view for a deleted message,
in registration order. -/
def onDeleteOps {M E : Type} (msg : M) : List (indexer M E) → List WriteOp
  | [] => []
  | idx :: rest => (idx.onDelete msg).1 ++ onDeleteOps msg rest

/-- The pre-delete notification of a delete that goes on: one accepted `OnDelete` call
when the backend has a hook sink, no call when it has none. -/
def hookCalls {C V M E O : Type} (backend : Backend M E) (msg : M) : List (Event C V M E O) :=
  match backend.getHooks with
  | none => []
  | some _ => [Event.hookOnDelete msg none]

/-- The calls `onDelete` on the first `n` registered indexers, in registration order,
all returning `nil`. -/
def onDeleteCalls {C V M E O : Type} (msg : M) (n : Nat) : List (Event C V M E O) :=
  (List.range n).map (fun j => Event.onDelete j msg none)

/-- The calls of a delete up to and including the decoding of the stored record. -/
def lookupCalls {C V M E O : Type} (ctx : C) (values : List V) (pk bz : Bytes) :
    List (Event C V M E O) :=
  [Event.getBackend ctx, Event.encodeKey values, Event.storeGet pk, Event.unmarshal values bz]

/-! ## A concrete table, used to instantiate the statements

Contexts, Go values, field values, errors and options are numbers; a message is the
list of its field values. -/

/-- A hook sink that rejects, with error 6, the records whose first field is 9. -/
def demoHooks : Hooks (List Nat) Nat :=
  ⟨fun m => if m.head? = some 9 then some 6 else none⟩

/-- A secondary index whose maintenance never fails. -/
def demoIndexerA : indexer (List Nat) Nat :=
  ⟨fun m => ([WriteOp.set (100 :: m) []], none),
   fun m old => ([WriteOp.delete (100 :: old), WriteOp.set (100 :: m) []], none),
   fun m => ([WriteOp.delete (100 :: m)], none)⟩

/-- A secondary index whose delete maintenance fails, with error 4, on the records
whose first field is 3. -/
def demoIndexerB : indexer (List Nat) Nat :=
  ⟨fun m => ([WriteOp.set (200 :: m) []], none),
   fun m old => ([WriteOp.delete (200 :: old), WriteOp.set (200 :: m) []], none),
   fun m => if m.head? = some 3 then ([], some 4) else ([WriteOp.delete (200 :: m)], none)⟩

/-- A primary-key index on two fields with two secondary indexes. Field values from 256
on do not encode (error 1); more than two values in a bound are not a valid range
(error 2); the stored bytes `[255]` do not decode (error 3); context 0 resolves to no
backend (error 5), context 2 to a backend with the hook sink, other contexts to a
backend without one. -/
def demoIndex : primaryKeyIndex Nat Nat (List Nat) Nat where
  EncodeKey := fun vs => if vs.all (fun v => decide (v < 256)) then .ok vs else .error 1
  CheckValidRangeIterationKeys := fun a b =>
    if a.length ≤ 2 ∧ b.length ≤ 2 then none else some 2
  Unmarshal := fun kv bz m => if bz = [255] then (m, some 3) else (kv ++ bz, none)
  GetFieldNames := ["category", "price"]
  newMessage := []
  indexers := [demoIndexerA, demoIndexerB]
  getBackend := fun c =>
    if c = 0 then .error 5
    else .ok ⟨ReadBackend.handle, if c = 2 then some demoHooks else none⟩
  getReadBackend := fun c => if c = 0 then .error 5 else .ok ReadBackend.handle

/-- Go values are the field values; an iterator is the description of its bounds. -/
def demoPkg : Pkg Nat Nat Nat Nat (Bytes × Bytes × Bool) where
  ValuesOf := fun l => l
  prefixIterator := fun _ bz _ => (some (bz, bz, false), none)
  rangeIterator := fun _ a b f _ => (some (a, b, f), none)

/-- Stores that never fail, holding four records (the one under `[6, 6]` with bytes
that do not decode) and the index entries of the first of them. -/
def demoStores : Stores Nat where
  commitment :=
    ⟨fun k =>
      if k = [1, 10] then some [7]
      else if k = [3, 3] then some [8]
      else if k = [9, 9] then some [8]
      else if k = [6, 6] then some [255]
      else none,
     fun _ => none, fun _ => none⟩
  index :=
    ⟨fun k => if k = [100, 1, 10, 7] ∨ k = [200, 1, 10, 7] then some [] else none,
     fun _ => none, fun _ => none⟩

/-- The stores `demoStores` after the committed delete of the record under `[1, 10]`. -/
def demoStoresAfter : Stores Nat :=
  ⟨demoStores.commitment.apply (WriteOp.delete [1, 10]),
   (demoStores.index.apply (WriteOp.delete [100, 1, 10, 7])).apply
     (WriteOp.delete [200, 1, 10, 7])⟩

/-! ## Lemmas on the embedding -/

section lemmas
variable {C A V M E O I σ ε α β : Type}

@[simp] theorem Act.pure_run (a : α) (s : σ) : (Pure.pure a : Act σ ε α) s = ⟨a, s, []⟩ := rfl

@[simp] theorem Act.bind_run (x : Act σ ε α) (f : α → Act σ ε β) (s : σ) :
    (x >>= f) s = ⟨(f (x s).val (x s).state).val, (f (x s).val (x s).state).state,
      (x s).log ++ (f (x s).val (x s).state).log⟩ := rfl

@[simp] theorem emit_run (e : ε) (s : σ) : (emit e : Act σ ε Unit) s = ⟨(), s, [e]⟩ := rfl

@[simp] theorem CommitmentStoreReader_run (b : ReadBackend) (s : Stores E) :
    (b.CommitmentStoreReader : Act (Stores E) ε (KVStore E)) s = ⟨s.commitment, s, []⟩ := rfl

theorem getByKeyBytes_absent (p : primaryKeyIndex C V M E) (store : ReadBackend) (key : Bytes)
    (kv : List V) (msg : M) (s : Stores E) (h : s.commitment.Get key = .ok none) :
    (p.getByKeyBytes store key kv msg : Act (Stores E) (Event C V M E O) _) s
      = ⟨(false, none, msg), s, [Event.storeGet key]⟩ := by
  simp [primaryKeyIndex.getByKeyBytes, h]

theorem getByKeyBytes_present (p : primaryKeyIndex C V M E) (store : ReadBackend) (key : Bytes)
    (kv : List V) (msg : M) (s : Stores E) (bz : Bytes) (h : s.commitment.Get key = .ok (some bz)) :
    (p.getByKeyBytes store key kv msg : Act (Stores E) (Event C V M E O) _) s
      = ⟨(true, (p.Unmarshal kv bz msg).2, (p.Unmarshal kv bz msg).1), s,
          [Event.storeGet key, Event.unmarshal kv bz]⟩ := by
  simp [primaryKeyIndex.getByKeyBytes, h]

/-- The index fan-out never changes the stores. -/
theorem clearIndexes_state (msg : M) (ixs : List (indexer M E)) :
    ∀ (i : Nat) (w : batchIndexCommitmentWriter) (s : Stores E),
      (primaryKeyIndex.clearIndexes msg i ixs w s : Outcome _ (Event C V M E O) _).state = s := by
  induction ixs with
  | nil => intro i w s; simp [primaryKeyIndex.clearIndexes]
  | cons ix rest ih =>
    intro i w s
    cases h : (ix.onDelete msg).2 with
    | none => simp [primaryKeyIndex.clearIndexes, h, ih]
    | some e => simp [primaryKeyIndex.clearIndexes, h]

/-- Every call logged by the index fan-out is an `onDelete` call on the message. -/
theorem clearIndexes_log_shape (msg : M) (ixs : List (indexer M E)) :
    ∀ (i : Nat) (w : batchIndexCommitmentWriter) (s : Stores E) (ev : Event C V M E O),
      ev ∈ (primaryKeyIndex.clearIndexes msg i ixs w s : Outcome _ (Event C V M E O) _).log →
      ∃ j r, ev = Event.onDelete j msg r := by
  induction ixs with
  | nil => intro i w s ev; simp [primaryKeyIndex.clearIndexes]
  | cons ix rest ih =>
    intro i w s ev
    cases h : (ix.onDelete msg).2 with
    | none =>
      simp only [primaryKeyIndex.clearIndexes, h, Act.bind_run, emit_run, List.singleton_append,
        List.mem_cons]
      rintro (rfl | hmem)
      · exact ⟨i, none, rfl⟩
      · exact ih _ _ _ _ hmem
    | some e =>
      simp only [primaryKeyIndex.clearIndexes, h, Act.bind_run, emit_run, Act.pure_run,
        List.append_nil, List.mem_singleton]
      rintro rfl
      exact ⟨i, some e, rfl⟩

/-- An `onDelete` call that returned an error is the one the fan-out returns. -/
theorem clearIndexes_error_logged (msg : M) (ixs : List (indexer M E)) :
    ∀ (i : Nat) (w : batchIndexCommitmentWriter) (s : Stores E) (j : Nat) (m2 : M) (e : E),
      Event.onDelete j m2 (some e) ∈
        (primaryKeyIndex.clearIndexes msg i ixs w s : Outcome _ (Event C V M E O) _).log →
      (primaryKeyIndex.clearIndexes msg i ixs w s : Outcome _ (Event C V M E O) _).val.1 = some e := by
  induction ixs with
  | nil => intro i w s j m2 e; simp [primaryKeyIndex.clearIndexes]
  | cons ix rest ih =>
    intro i w s j m2 e
    cases h : (ix.onDelete msg).2 with
    | none =>
      simp only [primaryKeyIndex.clearIndexes, h, Act.bind_run, emit_run, List.singleton_append,
        List.mem_cons]
      rintro (hh | hmem)
      · simp at hh
      · exact ih _ _ _ _ _ _ hmem
    | some e2 =>
      simp only [primaryKeyIndex.clearIndexes, h, Act.bind_run, emit_run, Act.pure_run,
        List.append_nil, List.mem_singleton]
      intro hh
      simp at hh
      simp [hh.2.2]

theorem clearIndexes_cons_ok (msg : M) (ix : indexer M E) (rest : List (indexer M E)) (i : Nat)
    (w : batchIndexCommitmentWriter) (s : Stores E) (h : (ix.onDelete msg).2 = none) :
    (primaryKeyIndex.clearIndexes msg i (ix :: rest) w s : Outcome _ (Event C V M E O) _)
      = ⟨(primaryKeyIndex.clearIndexes msg (i + 1) rest
            (w.indexStoreIssue (ix.onDelete msg).1) s : Outcome _ (Event C V M E O) _).val,
          (primaryKeyIndex.clearIndexes msg (i + 1) rest
            (w.indexStoreIssue (ix.onDelete msg).1) s : Outcome _ (Event C V M E O) _).state,
          Event.onDelete i msg none ::
            (primaryKeyIndex.clearIndexes msg (i + 1) rest
              (w.indexStoreIssue (ix.onDelete msg).1) s : Outcome _ (Event C V M E O) _).log⟩ := by
  simp [primaryKeyIndex.clearIndexes, h]

theorem clearIndexes_cons_fail (msg : M) (ix : indexer M E) (rest : List (indexer M E)) (i : Nat)
    (w : batchIndexCommitmentWriter) (s : Stores E) (e : E) (h : (ix.onDelete msg).2 = some e) :
    (primaryKeyIndex.clearIndexes msg i (ix :: rest) w s : Outcome _ (Event C V M E O) _)
      = ⟨(some e, w.indexStoreIssue (ix.onDelete msg).1), s, [Event.onDelete i msg (some e)]⟩ := by
  simp [primaryKeyIndex.clearIndexes, h]

theorem range_map_shift (msg : M) (i n : Nat) :
    (Event.onDelete i msg none : Event C V M E O) ::
        (List.range n).map (fun j => Event.onDelete (i + 1 + j) msg none)
      = (List.range (n + 1)).map (fun j => Event.onDelete (i + j) msg none) := by
  rw [List.range_succ_eq_map]
  simp only [List.map_cons, List.map_map, Nat.add_zero, List.cons.injEq, true_and]
  apply List.map_congr_left
  intro j _
  simp [Nat.add_comm 1 j, Nat.add_assoc]

/-- The fan-out over indexers that all succeed: one call each, in order, and their
mutations buffered in order. Stated from position `i` on for the induction. -/
theorem clearIndexes_ok_from (msg : M) (ixs : List (indexer M E)) :
    ∀ (i : Nat) (w : batchIndexCommitmentWriter) (s : Stores E),
      (∀ ix ∈ ixs, (ix.onDelete msg).2 = none) →
      (primaryKeyIndex.clearIndexes msg i ixs w s : Outcome _ (Event C V M E O) _)
        = ⟨(none, w.indexStoreIssue (onDeleteOps msg ixs)), s,
            (List.range ixs.length).map (fun j => Event.onDelete (i + j) msg none)⟩ := by
  induction ixs with
  | nil =>
    intro i w s _
    simp [primaryKeyIndex.clearIndexes, onDeleteOps, batchIndexCommitmentWriter.indexStoreIssue]
  | cons ix rest ih =>
    intro i w s hall
    have h1 : (ix.onDelete msg).2 = none := hall ix (List.mem_cons_self _ _)
    have h2 : ∀ ix2 ∈ rest, (ix2.onDelete msg).2 = none :=
      fun ix2 hm => hall ix2 (List.mem_cons_of_mem _ hm)
    rw [clearIndexes_cons_ok msg ix rest i w s h1, ih (i + 1) _ s h2, List.length_cons,
      ← range_map_shift]
    simp [onDeleteOps, batchIndexCommitmentWriter.indexStoreIssue]

/-- The fan-out stops at the first indexer that fails: the indexers before it were
called once each, it was called, and no later indexer was. -/
theorem clearIndexes_fail_from (msg : M) (pre : List (indexer M E)) (ix : indexer M E)
    (post : List (indexer M E)) (e : E) (hfail : (ix.onDelete msg).2 = some e) :
    ∀ (i : Nat) (w : batchIndexCommitmentWriter) (s : Stores E),
      (∀ ix2 ∈ pre, (ix2.onDelete msg).2 = none) →
      (primaryKeyIndex.clearIndexes msg i (pre ++ ix :: post) w s : Outcome _ (Event C V M E O) _)
        = ⟨(some e, w.indexStoreIssue (onDeleteOps msg pre ++ (ix.onDelete msg).1)), s,
            (List.range pre.length).map (fun j => Event.onDelete (i + j) msg none)
              ++ [Event.onDelete (i + pre.length) msg (some e)]⟩ := by
  induction pre with
  | nil =>
    intro i w s _
    rw [List.nil_append, clearIndexes_cons_fail msg ix post i w s e hfail]
    simp [onDeleteOps]
  | cons p rest ih =>
    intro i w s hall
    have h1 : (p.onDelete msg).2 = none := hall p (List.mem_cons_self _ _)
    have h2 : ∀ ix2 ∈ rest, (ix2.onDelete msg).2 = none :=
      fun ix2 hm => hall ix2 (List.mem_cons_of_mem _ hm)
    rw [List.cons_append, clearIndexes_cons_ok msg p _ i w s h1, ih (i + 1) _ s h2,
      List.length_cons, ← range_map_shift]
    simp [onDeleteOps, batchIndexCommitmentWriter.indexStoreIssue, Nat.add_comm 1, Nat.add_assoc]

/-- The body under the deferred close, when the fan-out returns an error: the error is
returned, no write is made and the stores stay as they were. -/
theorem deleteObject_fanout_error (t : primaryKeyIndex C V M E) (pk : Bytes) (msg : M)
    (s : Stores E) (e : E)
    (h : (primaryKeyIndex.clearIndexes msg 0 t.indexers ⟨[WriteOp.delete pk], []⟩ s :
      Outcome _ (Event C V M E O) _).val.1 = some e) :
    (t.deleteObject ⟨[], []⟩ pk msg s : Outcome _ (Event C V M E O) _)
      = ⟨(some e, (primaryKeyIndex.clearIndexes msg 0 t.indexers ⟨[WriteOp.delete pk], []⟩ s :
            Outcome _ (Event C V M E O) _).val.2), s,
          Event.writerDelete pk ::
            (primaryKeyIndex.clearIndexes msg 0 t.indexers ⟨[WriteOp.delete pk], []⟩ s :
              Outcome _ (Event C V M E O) _).log⟩ := by
  simp [primaryKeyIndex.deleteObject, batchIndexCommitmentWriter.commitmentStoreDelete, h,
    clearIndexes_state]

/-- The body under the deferred close, when the fan-out succeeds: the buffered batch
is written and the result of the write is returned. -/
theorem deleteObject_fanout_ok (t : primaryKeyIndex C V M E) (pk : Bytes) (msg : M)
    (s : Stores E) (w : batchIndexCommitmentWriter) (l : List (Event C V M E O))
    (h : (primaryKeyIndex.clearIndexes msg 0 t.indexers ⟨[WriteOp.delete pk], []⟩ s :
      Outcome _ (Event C V M E O) _) = ⟨(none, w), s, l⟩) :
    (t.deleteObject ⟨[], []⟩ pk msg s : Outcome _ (Event C V M E O) _)
      = ⟨(w.Write s : Outcome _ (Event C V M E O) _).val,
          (w.Write s : Outcome _ (Event C V M E O) _).state,
          Event.writerDelete pk :: (l ++ (w.Write s : Outcome _ (Event C V M E O) _).log)⟩ := by
  simp [primaryKeyIndex.deleteObject, batchIndexCommitmentWriter.commitmentStoreDelete, h]

theorem Write_run_ok (w : batchIndexCommitmentWriter) (s s2 : Stores E) (h : s.commit w = .ok s2) :
    (w.Write s : Outcome _ (Event C V M E O) _)
      = ⟨(none, ⟨[], []⟩), s2, [Event.write w.commitmentBuf w.indexBuf none]⟩ := by
  simp [batchIndexCommitmentWriter.Write, h]

theorem Write_run_error (w : batchIndexCommitmentWriter) (s : Stores E) (e : E)
    (h : s.commit w = .error e) :
    (w.Write s : Outcome _ (Event C V M E O) _)
      = ⟨(some e, w), s, [Event.write w.commitmentBuf w.indexBuf (some e)]⟩ := by
  simp [batchIndexCommitmentWriter.Write, h]

/-- A delete whose record decodes and whose hook sink rejects it. -/
theorem doDeleteByKey_hook_rejects (t : primaryKeyIndex C V M E) (ctx : C) (vals : List V)
    (s : Stores E) (backend : Backend M E) (pk bz : Bytes) (m : M) (hooks : Hooks M E) (e : E)
    (hb : t.getBackend ctx = .ok backend) (hk : t.EncodeKey vals = .ok pk)
    (hget : s.commitment.Get pk = .ok (some bz))
    (hdec : t.Unmarshal vals bz t.newMessage = (m, none))
    (hh : backend.getHooks = some hooks) (hrej : hooks.OnDelete m = some e) :
    (t.doDeleteByKey ctx vals s : Outcome _ (Event C V M E O) _)
      = ⟨some e, s, lookupCalls ctx vals pk bz ++ [Event.hookOnDelete m (some e)]⟩ := by
  simp [primaryKeyIndex.doDeleteByKey, hb, hk, getByKeyBytes_present _ _ _ _ _ _ _ hget, hdec, hh,
    hrej, lookupCalls]

/-- A delete whose record decodes and is accepted by the hook sink, if there is one:
the writer is opened, the body runs and the writer is closed. -/
theorem doDeleteByKey_proceeds (t : primaryKeyIndex C V M E) (ctx : C) (vals : List V)
    (s : Stores E) (backend : Backend M E) (pk bz : Bytes) (m : M)
    (hb : t.getBackend ctx = .ok backend) (hk : t.EncodeKey vals = .ok pk)
    (hget : s.commitment.Get pk = .ok (some bz))
    (hdec : t.Unmarshal vals bz t.newMessage = (m, none))
    (hhook : ∀ hooks, backend.getHooks = some hooks → hooks.OnDelete m = none) :
    (t.doDeleteByKey ctx vals s : Outcome _ (Event C V M E O) _)
      = ⟨(t.deleteObject ⟨[], []⟩ pk m s : Outcome _ (Event C V M E O) _).val.1,
          (t.deleteObject ⟨[], []⟩ pk m s : Outcome _ (Event C V M E O) _).state,
          lookupCalls ctx vals pk bz ++ (hookCalls backend m ++ (Event.newWriter ::
            ((t.deleteObject ⟨[], []⟩ pk m s : Outcome _ (Event C V M E O) _).log
              ++ [Event.close])))⟩ := by
  cases hh : backend.getHooks with
  | none =>
    simp [primaryKeyIndex.doDeleteByKey, hb, hk, getByKeyBytes_present _ _ _ _ _ _ _ hget, hdec, hh,
      lookupCalls, hookCalls, newBatchIndexCommitmentWriter, batchIndexCommitmentWriter.Close]
  | some hooks =>
    simp [primaryKeyIndex.doDeleteByKey, hb, hk, getByKeyBytes_present _ _ _ _ _ _ _ hget, hdec, hh,
      hhook hooks hh, lookupCalls, hookCalls, newBatchIndexCommitmentWriter,
      batchIndexCommitmentWriter.Close]

end lemmas

section aborts
variable {C A V M E O I : Type}

/-- C2 (idempotent delete). When the backend resolves, the key tuple encodes and the
commitment store has no entry at the encoded key, `DeleteByKey` returns `nil`, leaves
both stores as they were, and its only calls are the backend resolution, the key
encoding and the store lookup: no hook call, no indexer call, no batch writer. A
second call right after the first ends with the same result and the same stores. -/
theorem DeleteByKey_absent_key_is_noop (d : Pkg A V E O I) (t : primaryKeyIndex C V M E)
    (ctx : C) (k : List A) (s : Stores E) (backend : Backend M E) (pk : Bytes)
    (hb : t.getBackend ctx = .ok backend)
    (hk : t.EncodeKey (d.ValuesOf k) = .ok pk)
    (habs : s.commitment.Get pk = .ok none) :
    t.DeleteByKey d ctx k s
        = ⟨none, s, [Event.getBackend ctx, Event.encodeKey (d.ValuesOf k), Event.storeGet pk]⟩ ∧
      (∀ m r, Event.hookOnDelete m r ∉ (t.DeleteByKey d ctx k s).log) ∧
      (∀ i m r, Event.onDelete i m r ∉ (t.DeleteByKey d ctx k s).log) ∧
      Event.newWriter ∉ (t.DeleteByKey d ctx k s).log ∧
      ((t.DeleteByKey d ctx k >>= fun _ => t.DeleteByKey d ctx k) s).val
        = (t.DeleteByKey d ctx k s).val ∧
      ((t.DeleteByKey d ctx k >>= fun _ => t.DeleteByKey d ctx k) s).state
        = (t.DeleteByKey d ctx k s).state := by
  have h : t.DeleteByKey d ctx k s
      = ⟨none, s, [Event.getBackend ctx, Event.encodeKey (d.ValuesOf k), Event.storeGet pk]⟩ := by
    simp [primaryKeyIndex.DeleteByKey, primaryKeyIndex.doDeleteByKey, hb, hk,
      getByKeyBytes_absent _ _ _ _ _ _ habs]
  refine ⟨h, ?_, ?_, ?_, ?_, ?_⟩ <;> simp [h]

/-- C10 (an undecodable record is kept). When the backend resolves, the key tuple
encodes, the commitment store has an entry at the encoded key and decoding its bytes
returns the error `e`, `DeleteByKey` returns `e`, makes no hook call, no indexer call
and opens no batch writer, and leaves both stores as they were: the entry is still
there with the same bytes. -/
theorem DeleteByKey_undecodable_record_is_kept (d : Pkg A V E O I)
    (t : primaryKeyIndex C V M E) (ctx : C) (k : List A) (s : Stores E) (backend : Backend M E)
    (pk bz : Bytes) (e : E)
    (hb : t.getBackend ctx = .ok backend)
    (hk : t.EncodeKey (d.ValuesOf k) = .ok pk)
    (hget : s.commitment.Get pk = .ok (some bz))
    (hdec : (t.Unmarshal (d.ValuesOf k) bz t.newMessage).2 = some e) :
    t.DeleteByKey d ctx k s
        = ⟨some e, s, lookupCalls ctx (d.ValuesOf k) pk bz⟩ ∧
      (∀ m r, Event.hookOnDelete m r ∉ (t.DeleteByKey d ctx k s).log) ∧
      (∀ i m r, Event.onDelete i m r ∉ (t.DeleteByKey d ctx k s).log) ∧
      Event.newWriter ∉ (t.DeleteByKey d ctx k s).log ∧
      (t.DeleteByKey d ctx k s).state.commitment.Get pk = .ok (some bz) := by
  have h : t.DeleteByKey d ctx k s = ⟨some e, s, lookupCalls ctx (d.ValuesOf k) pk bz⟩ := by
    simp [primaryKeyIndex.DeleteByKey, primaryKeyIndex.doDeleteByKey, hb, hk,
      getByKeyBytes_present _ _ _ _ _ _ _ hget, hdec, lookupCalls]
  refine ⟨h, ?_, ?_, ?_, ?_⟩ <;> simp [h, lookupCalls, hget]

/-- C3 (pre-delete hook abort). For a key whose record is present and decodes to `m`:
if the backend has a hook sink and its `OnDelete m` returns the error `e`, then
`DeleteByKey` returns exactly `e`, the hook call is its last call (the batch writer is
not opened, no `Delete` is issued, no indexer is called) and both stores are as they
were; if the backend has no hook sink, no hook call is made and the delete goes on to
open the batch writer and issue the `Delete` of the encoded key. -/
theorem DeleteByKey_hook_error_aborts_before_writer (d : Pkg A V E O I)
    (t : primaryKeyIndex C V M E) (ctx : C) (k : List A) (s : Stores E) (backend : Backend M E)
    (pk bz : Bytes) (m : M)
    (hb : t.getBackend ctx = .ok backend)
    (hk : t.EncodeKey (d.ValuesOf k) = .ok pk)
    (hget : s.commitment.Get pk = .ok (some bz))
    (hdec : t.Unmarshal (d.ValuesOf k) bz t.newMessage = (m, none)) :
    (∀ (hooks : Hooks M E) (e : E),
        backend.getHooks = some hooks → hooks.OnDelete m = some e →
        t.DeleteByKey d ctx k s
            = ⟨some e, s, lookupCalls ctx (d.ValuesOf k) pk bz ++ [Event.hookOnDelete m (some e)]⟩ ∧
          Event.newWriter ∉ (t.DeleteByKey d ctx k s).log ∧
          (∀ key, Event.writerDelete key ∉ (t.DeleteByKey d ctx k s).log) ∧
          (∀ i m2 r, Event.onDelete i m2 r ∉ (t.DeleteByKey d ctx k s).log)) ∧
      (backend.getHooks = none →
        (∀ m2 r, Event.hookOnDelete m2 r ∉ (t.DeleteByKey d ctx k s).log) ∧
          (lookupCalls ctx (d.ValuesOf k) pk bz ++ [Event.newWriter, Event.writerDelete pk])
            <+: (t.DeleteByKey d ctx k s).log) := by
  constructor
  · intro hooks e hh hrej
    have h := doDeleteByKey_hook_rejects (O := O) t ctx (d.ValuesOf k) s backend pk bz m hooks e
      hb hk hget hdec hh hrej
    have h2 : t.DeleteByKey d ctx k s
        = ⟨some e, s, lookupCalls ctx (d.ValuesOf k) pk bz ++ [Event.hookOnDelete m (some e)]⟩ := h
    refine ⟨h2, ?_, ?_, ?_⟩ <;> simp [h2, lookupCalls]
  · intro hh
    have h := doDeleteByKey_proceeds (O := O) t ctx (d.ValuesOf k) s backend pk bz m
      hb hk hget hdec (by simp [hh])
    have h2 : (t.DeleteByKey d ctx k s).log = _ := congrArg Outcome.log h
    simp only [hookCalls, hh, List.nil_append] at h2
    cases hr : (primaryKeyIndex.clearIndexes m 0 t.indexers ⟨[WriteOp.delete pk], []⟩ s :
      Outcome _ (Event C V M E O) _) with
    | mk val st l =>
      obtain ⟨r1, w⟩ := val
      have hst : st = s := by
        have := clearIndexes_state (C := C) (V := V) (O := O) m t.indexers 0
          ⟨[WriteOp.delete pk], []⟩ s
        rw [hr] at this
        exact this
      subst hst
      have hshape : ∀ ev ∈ l, ∃ j r, ev = Event.onDelete j m r := by
        intro ev hev
        have := clearIndexes_log_shape (C := C) (V := V) (O := O) m t.indexers 0
          ⟨[WriteOp.delete pk], []⟩ st ev
        rw [hr] at this
        exact this hev
      cases r1 with
      | some e =>
        have hd := deleteObject_fanout_error (O := O) t pk m st e (by rw [hr])
        rw [hd, hr] at h2
        constructor
        · intro m2 r hmem
          rw [h2] at hmem
          simp [lookupCalls] at hmem
          obtain ⟨j, r2, hj⟩ := hshape _ hmem
          simp at hj
        · rw [h2]
          simp [lookupCalls]
      | none =>
        have hd := deleteObject_fanout_ok (O := O) t pk m st w l hr
        rw [hd] at h2
        constructor
        · intro m2 r hmem
          rw [h2] at hmem
          simp [lookupCalls] at hmem
          rcases hmem with hmem | hmem
          · obtain ⟨j, r2, hj⟩ := hshape _ hmem
            simp at hj
          · cases hc : st.commit w with
            | error e2 => simp [Write_run_error _ _ _ hc] at hmem
            | ok s2 => simp [Write_run_ok _ _ _ hc] at hmem
        · rw [h2]
          simp [lookupCalls]

end aborts

section storeLemmas
variable {C A V M E O I : Type}

theorem hookCalls_shape (backend : Backend M E) (m : M) (ev : Event C V M E O)
    (h : ev ∈ (hookCalls backend m : List (Event C V M E O))) : ev = Event.hookOnDelete m none := by
  unfold hookCalls at h
  cases hh : backend.getHooks with
  | none => simp [hh] at h
  | some hooks => simpa [hh] using h

/-- What committing the batch of a delete does to the commitment store: the entry at
the deleted key is gone, the others and the fault behaviour are as before. -/
theorem commit_delete_commitment (s s2 : Stores E) (pk : Bytes) (ops : List WriteOp)
    (h : s.commit ⟨[WriteOp.delete pk], ops⟩ = .ok s2) :
    s2.commitment = s.commitment.apply (WriteOp.delete pk) := by
  unfold Stores.commit at h
  simp only [KVStore.flush, WriteOp.key] at h
  cases hf : s.commitment.writeFault pk with
  | some e => simp [hf] at h
  | none =>
    simp only [hf] at h
    cases hi : (s.index.flush ops) with
    | error e => simp [hi] at h
    | ok i =>
      simp only [hi, Except.ok.injEq] at h
      rw [← h]

end storeLemmas

section atomicity
variable {C A V M E O I : Type}

/-- C1 (atomicity of delete). In a backend state in which the key `k` is present (its
encoding `pk` has the entry `bz` in the commitment store), whenever a call of an
indexer's `onDelete` made by `DeleteByKey` returns an error `e`, `DeleteByKey`
returns that error, never calls the batch writer's `Write`, and, the batch writer
buffering until `Write` and discarding on `Close`, leaves the commitment store and the
index store exactly as they were: the entry at `pk` is still `bz`. -/
theorem DeleteByKey_indexer_error_is_atomic (d : Pkg A V E O I) (t : primaryKeyIndex C V M E)
    (ctx : C) (k : List A) (s : Stores E) (pk bz : Bytes) (i : Nat) (m : M) (e : E)
    (hk : t.EncodeKey (d.ValuesOf k) = .ok pk)
    (hget : s.commitment.Get pk = .ok (some bz))
    (hev : Event.onDelete i m (some e) ∈ (t.DeleteByKey d ctx k s).log) :
    (t.DeleteByKey d ctx k s).val = some e ∧
      (∀ cb ib r, Event.write cb ib r ∉ (t.DeleteByKey d ctx k s).log) ∧
      (t.DeleteByKey d ctx k s).state = s ∧
      (t.DeleteByKey d ctx k s).state.commitment.Get pk = .ok (some bz) := by
  have hdef : t.DeleteByKey d ctx k s = t.doDeleteByKey ctx (d.ValuesOf k) s := rfl
  cases hb : t.getBackend ctx with
  | error e2 =>
    exfalso
    simp [primaryKeyIndex.DeleteByKey, primaryKeyIndex.doDeleteByKey, hb] at hev
  | ok backend =>
    cases hdec : t.Unmarshal (d.ValuesOf k) bz t.newMessage with
    | mk m2 oe =>
      cases oe with
      | some e2 =>
        exfalso
        simp [primaryKeyIndex.DeleteByKey, primaryKeyIndex.doDeleteByKey, hb, hk,
          getByKeyBytes_present _ _ _ _ _ _ _ hget, hdec] at hev
      | none =>
        by_cases hrej : ∃ hooks e2, backend.getHooks = some hooks ∧ hooks.OnDelete m2 = some e2
        · exfalso
          obtain ⟨hooks, e2, hh, hr⟩ := hrej
          rw [hdef, doDeleteByKey_hook_rejects t ctx _ s backend pk bz m2 hooks e2 hb hk hget hdec
            hh hr] at hev
          simp [lookupCalls] at hev
        · have hhook : ∀ hooks, backend.getHooks = some hooks → hooks.OnDelete m2 = none := by
            intro hooks hh
            cases hr : hooks.OnDelete m2 with
            | none => rfl
            | some e2 => exact absurd ⟨hooks, e2, hh, hr⟩ hrej
          have hp := doDeleteByKey_proceeds (O := O) t ctx (d.ValuesOf k) s backend pk bz m2
            hb hk hget hdec hhook
          rw [← hdef] at hp
          cases hr : (primaryKeyIndex.clearIndexes m2 0 t.indexers ⟨[WriteOp.delete pk], []⟩ s :
            Outcome _ (Event C V M E O) _) with
          | mk val st l =>
            obtain ⟨r1, w⟩ := val
            have hst : st = s := by
              have := clearIndexes_state (C := C) (V := V) (O := O) m2 t.indexers 0
                ⟨[WriteOp.delete pk], []⟩ s
              rw [hr] at this
              exact this
            subst hst
            have hshape : ∀ ev ∈ l, ∃ j r, ev = Event.onDelete j m2 r := by
              intro ev hmem
              have := clearIndexes_log_shape (C := C) (V := V) (O := O) m2 t.indexers 0
                ⟨[WriteOp.delete pk], []⟩ st ev
              rw [hr] at this
              exact this hmem
            have herr : Event.onDelete i m (some e) ∈ l → r1 = some e := by
              intro hmem
              have := clearIndexes_error_logged (C := C) (V := V) (O := O) m2 t.indexers 0
                ⟨[WriteOp.delete pk], []⟩ st i m e
              rw [hr] at this
              exact this hmem
            have hnohook : Event.onDelete i m (some e) ∉
                (hookCalls backend m2 : List (Event C V M E O)) := by
              intro hmem
              have := hookCalls_shape backend m2 _ hmem
              simp at this
            cases r1 with
            | some e2 =>
              have hd := deleteObject_fanout_error (O := O) t pk m2 st e2 (by rw [hr])
              rw [hd, hr] at hp
              rw [hp] at hev ⊢
              simp [lookupCalls, hnohook] at hev
              have he := herr hev
              simp at he
              subst he
              refine ⟨rfl, ?_, rfl, hget⟩
              intro cb ib r hmem
              simp [lookupCalls] at hmem
              rcases hmem with hmem | hmem
              · have := hookCalls_shape backend m2 _ hmem
                simp at this
              · obtain ⟨j, r2, hj⟩ := hshape _ hmem
                simp at hj
            | none =>
              exfalso
              have hd := deleteObject_fanout_ok (O := O) t pk m2 st w l hr
              rw [hd] at hp
              rw [hp] at hev
              simp [lookupCalls, hnohook] at hev
              rcases hev with hmem | hmem
              · have := herr hmem
                simp at this
              · cases hc : st.commit w with
                | error e2 => simp [Write_run_error _ _ _ hc] at hmem
                | ok s2 => simp [Write_run_ok _ _ _ hc] at hmem

end atomicity

section postcondition
variable {C A V M E O I : Type}

/-- C4 (delete postcondition). For a key `k` whose record is present in the commitment
store and decodes to `m`: if the hook sink (when there is one) accepts `m`, every
registered indexer's `onDelete m` succeeds and the commit of the batch succeeds with
the stores `s2`, then `DeleteByKey` returns `nil` and ends in `s2`, where the
commitment store has no entry at the encoded key, so that `Has(k)` returns
`(false, nil)` and `Get(k)` returns `(false, nil)` without touching the caller's
message, while every entry of the commitment store under another key is as before. -/
theorem DeleteByKey_removes_entry (d : Pkg A V E O I) (t : primaryKeyIndex C V M E)
    (ctx : C) (k : List A) (s s2 : Stores E) (backend : Backend M E) (pk bz : Bytes) (m : M)
    (hb : t.getBackend ctx = .ok backend)
    (hk : t.EncodeKey (d.ValuesOf k) = .ok pk)
    (hget : s.commitment.Get pk = .ok (some bz))
    (hdec : t.Unmarshal (d.ValuesOf k) bz t.newMessage = (m, none))
    (hhook : ∀ hooks, backend.getHooks = some hooks → hooks.OnDelete m = none)
    (hix : ∀ ix ∈ t.indexers, (ix.onDelete m).2 = none)
    (hwrite : s.commit ⟨[WriteOp.delete pk], onDeleteOps m t.indexers⟩ = .ok s2) :
    (t.DeleteByKey d ctx k s).val = none ∧
      (t.DeleteByKey d ctx k s).state = s2 ∧
      s2.commitment.Get pk = .ok none ∧
      (∀ (ctx2 : C) (rb : ReadBackend) (msg : M), t.getReadBackend ctx2 = .ok rb →
        (t.Has d ctx2 k s2).val = (false, none) ∧
        (t.Get d ctx2 msg k s2).val = (false, none, msg)) ∧
      (∀ key, key ≠ pk → s2.commitment.entries key = s.commitment.entries key) := by
  have hdef : t.DeleteByKey d ctx k s = t.doDeleteByKey ctx (d.ValuesOf k) s := rfl
  have hp := doDeleteByKey_proceeds (O := O) t ctx (d.ValuesOf k) s backend pk bz m
    hb hk hget hdec hhook
  have hc := clearIndexes_ok_from (C := C) (V := V) (O := O) m t.indexers 0
    ⟨[WriteOp.delete pk], []⟩ s hix
  have hw : (⟨[WriteOp.delete pk], []⟩ : batchIndexCommitmentWriter).indexStoreIssue
      (onDeleteOps m t.indexers) = ⟨[WriteOp.delete pk], onDeleteOps m t.indexers⟩ := by
    simp [batchIndexCommitmentWriter.indexStoreIssue]
  rw [hw] at hc
  rw [deleteObject_fanout_ok t pk m s _ _ hc, Write_run_ok _ _ _ hwrite] at hp
  have hcs := commit_delete_commitment s s2 pk _ hwrite
  have hfault : s.commitment.readFault pk = none := by
    unfold KVStore.Get at hget
    cases hf : s.commitment.readFault pk with
    | none => rfl
    | some e => simp [hf] at hget
  have hgone : s2.commitment.Get pk = .ok none := by
    rw [hcs]
    simp [KVStore.Get, KVStore.apply, hfault]
  refine ⟨?_, ?_, hgone, ?_, ?_⟩
  · rw [hdef, hp]
  · rw [hdef, hp]
  · intro ctx2 rb msg hrb
    constructor
    · have hhas : s2.commitment.Has pk = (false, none) := by
        rw [hcs]
        simp [KVStore.Has, KVStore.apply, hfault]
      simp [primaryKeyIndex.Has, hrb, hk, hhas]
    · simp [primaryKeyIndex.Get, primaryKeyIndex.get, hrb, hk,
        getByKeyBytes_absent _ _ _ _ _ _ hgone]
  · intro key hne
    rw [hcs]
    simp [KVStore.apply, hne]

/-- C5 (delete fan-out and step order). For a key `k` whose record is present and
decodes to `m`, the hook sink (when there is one) accepting `m`: if every registered
indexer's `onDelete m` succeeds, the calls of `DeleteByKey` after the lookup are, in
this order, the opening of the writer, one `Delete` of the encoded key on its
commitment store, one `onDelete` per registered indexer in registration order, each on
`m` and on the index-store view of that writer (the batch written holds their
mutations in that order), one `Write`, and the deferred `Close`; the result of that
`Write` is the result of the operation. If an indexer fails while those registered
before it succeed, it is the last indexer called, its error is returned and no `Write`
is made. -/
theorem DeleteByKey_fan_out_order (d : Pkg A V E O I) (t : primaryKeyIndex C V M E)
    (ctx : C) (k : List A) (s : Stores E) (backend : Backend M E) (pk bz : Bytes) (m : M)
    (hb : t.getBackend ctx = .ok backend)
    (hk : t.EncodeKey (d.ValuesOf k) = .ok pk)
    (hget : s.commitment.Get pk = .ok (some bz))
    (hdec : t.Unmarshal (d.ValuesOf k) bz t.newMessage = (m, none))
    (hhook : ∀ hooks, backend.getHooks = some hooks → hooks.OnDelete m = none) :
    ((∀ ix ∈ t.indexers, (ix.onDelete m).2 = none) →
        (t.DeleteByKey d ctx k s).val
          = ((⟨[WriteOp.delete pk], onDeleteOps m t.indexers⟩ : batchIndexCommitmentWriter).Write s :
              Outcome _ (Event C V M E O) _).val.1 ∧
        (t.DeleteByKey d ctx k s).log
          = lookupCalls ctx (d.ValuesOf k) pk bz ++ hookCalls backend m
            ++ [Event.newWriter, Event.writerDelete pk]
            ++ onDeleteCalls m t.indexers.length
            ++ [Event.write [WriteOp.delete pk] (onDeleteOps m t.indexers)
                  (t.DeleteByKey d ctx k s).val, Event.close]) ∧
      (∀ (pre : List (indexer M E)) (ix : indexer M E) (post : List (indexer M E)) (e : E),
        t.indexers = pre ++ ix :: post →
        (∀ ix2 ∈ pre, (ix2.onDelete m).2 = none) →
        (ix.onDelete m).2 = some e →
        (t.DeleteByKey d ctx k s).val = some e ∧
        (t.DeleteByKey d ctx k s).log
          = lookupCalls ctx (d.ValuesOf k) pk bz ++ hookCalls backend m
            ++ [Event.newWriter, Event.writerDelete pk]
            ++ onDeleteCalls m pre.length
            ++ [Event.onDelete pre.length m (some e), Event.close]) := by
  have hdef : t.DeleteByKey d ctx k s = t.doDeleteByKey ctx (d.ValuesOf k) s := rfl
  have hp := doDeleteByKey_proceeds (O := O) t ctx (d.ValuesOf k) s backend pk bz m
    hb hk hget hdec hhook
  rw [← hdef] at hp
  constructor
  · intro hix
    have hc := clearIndexes_ok_from (C := C) (V := V) (O := O) m t.indexers 0
      ⟨[WriteOp.delete pk], []⟩ s hix
    have hw : (⟨[WriteOp.delete pk], []⟩ : batchIndexCommitmentWriter).indexStoreIssue
        (onDeleteOps m t.indexers) = ⟨[WriteOp.delete pk], onDeleteOps m t.indexers⟩ := by
      simp [batchIndexCommitmentWriter.indexStoreIssue]
    rw [hw] at hc
    rw [deleteObject_fanout_ok t pk m s _ _ hc] at hp
    cases hcm : s.commit ⟨[WriteOp.delete pk], onDeleteOps m t.indexers⟩ with
    | error e =>
      rw [Write_run_error _ _ _ hcm] at hp ⊢
      rw [hp]
      simp [onDeleteCalls]
    | ok s2 =>
      rw [Write_run_ok _ _ _ hcm] at hp ⊢
      rw [hp]
      simp [onDeleteCalls]
  · intro pre ix post e hsplit hpre hfail
    have hc := clearIndexes_fail_from (C := C) (V := V) (O := O) m pre ix post e hfail 0
      ⟨[WriteOp.delete pk], []⟩ s hpre
    rw [← hsplit] at hc
    have hd := deleteObject_fanout_error (O := O) t pk m s e (by rw [hc])
    rw [hd, hc] at hp
    rw [hp]
    simp [onDeleteCalls]

end postcondition

section reads
variable {C A V M E O I : Type}

/-- C6 (absence is not an error in point lookups). When the read backend resolves and
the key tuple encodes to `kb`: if the commitment store has no entry at `kb`, `Has`
returns `(false, nil)` and `Get` returns `(false, nil)` without calling `Unmarshal`,
the caller's message being as it was; if the store has the entry `bz` at `kb`, `Get`
returns `found = true` together with exactly what `Unmarshal(k, bz, msg)` returns, so
that a decoding error is the error of `Get`. -/
theorem Has_Get_absence_is_not_an_error (d : Pkg A V E O I) (p : primaryKeyIndex C V M E)
    (ctx : C) (k : List A) (msg : M) (s : Stores E) (rb : ReadBackend) (kb : Bytes)
    (hr : p.getReadBackend ctx = .ok rb)
    (hk : p.EncodeKey (d.ValuesOf k) = .ok kb) :
    (s.commitment.Get kb = .ok none →
        p.Has d ctx k s
          = ⟨(false, none), s,
              [Event.getReadBackend ctx, Event.encodeKey (d.ValuesOf k), Event.storeHas kb]⟩ ∧
        p.Get d ctx msg k s
          = ⟨(false, none, msg), s,
              [Event.getReadBackend ctx, Event.encodeKey (d.ValuesOf k), Event.storeGet kb]⟩ ∧
        (∀ kv bz, Event.unmarshal kv bz ∉ (p.Get d ctx msg k s).log)) ∧
      (∀ bz, s.commitment.Get kb = .ok (some bz) →
        p.Get d ctx msg k s
          = ⟨(true, (p.Unmarshal (d.ValuesOf k) bz msg).2, (p.Unmarshal (d.ValuesOf k) bz msg).1), s,
              [Event.getReadBackend ctx, Event.encodeKey (d.ValuesOf k), Event.storeGet kb,
                Event.unmarshal (d.ValuesOf k) bz]⟩ ∧
        (∀ e, (p.Unmarshal (d.ValuesOf k) bz msg).2 = some e →
          (p.Get d ctx msg k s).val.2.1 = some e)) := by
  constructor
  · intro habs
    have hfault : s.commitment.readFault kb = none := by
      unfold KVStore.Get at habs
      cases hf : s.commitment.readFault kb with
      | none => rfl
      | some e => simp [hf] at habs
    have hent : s.commitment.entries kb = none := by
      simpa [KVStore.Get, hfault] using habs
    have hhas : s.commitment.Has kb = (false, none) := by
      simp [KVStore.Has, hfault, hent]
    have hget : p.Get d ctx msg k s
        = ⟨(false, none, msg), s,
            [Event.getReadBackend ctx, Event.encodeKey (d.ValuesOf k), Event.storeGet kb]⟩ := by
      simp [primaryKeyIndex.Get, primaryKeyIndex.get, hr, hk, getByKeyBytes_absent _ _ _ _ _ _ habs]
    refine ⟨?_, hget, ?_⟩
    · simp [primaryKeyIndex.Has, hr, hk, hhas]
    · simp [hget]
  · intro bz hpres
    have hget : p.Get d ctx msg k s
        = ⟨(true, (p.Unmarshal (d.ValuesOf k) bz msg).2, (p.Unmarshal (d.ValuesOf k) bz msg).1), s,
            [Event.getReadBackend ctx, Event.encodeKey (d.ValuesOf k), Event.storeGet kb,
              Event.unmarshal (d.ValuesOf k) bz]⟩ := by
      simp [primaryKeyIndex.Get, primaryKeyIndex.get, hr, hk,
        getByKeyBytes_present _ _ _ _ _ _ _ hpres]
    refine ⟨hget, ?_⟩
    intro e he
    rw [hget]
    exact he

/-- C7 (range bounds are validated before encoding and before any store access). When
the read backend resolves and `CheckValidRangeIterationKeys(start, end)` returns the
error `e`, `RangeIterator` returns `(nil, e)`; its only calls are the backend
resolution and the validation: `EncodeKey` is called on neither bound, no iterator is
constructed, and no store is read or written (both stores are as they were). -/
theorem RangeIterator_validates_before_encoding (d : Pkg A V E O I)
    (p : primaryKeyIndex C V M E) (ctx : C) (start stop : List V) (options : O) (s : Stores E)
    (rb : ReadBackend) (e : E)
    (hr : p.getReadBackend ctx = .ok rb)
    (hc : p.CheckValidRangeIterationKeys start stop = some e) :
    p.RangeIterator d ctx start stop options s
        = ⟨(none, some e), s,
            [Event.getReadBackend ctx, Event.checkValidRangeIterationKeys start stop]⟩ ∧
      (∀ vs, Event.encodeKey vs ∉ (p.RangeIterator d ctx start stop options s).log) ∧
      (∀ a b f o, Event.newRangeIterator a b f o ∉ (p.RangeIterator d ctx start stop options s).log) ∧
      (∀ key, Event.storeGet key ∉ (p.RangeIterator d ctx start stop options s).log ∧
        Event.storeHas key ∉ (p.RangeIterator d ctx start stop options s).log ∧
        Event.writerDelete key ∉ (p.RangeIterator d ctx start stop options s).log) ∧
      (∀ cb ib r, Event.write cb ib r ∉ (p.RangeIterator d ctx start stop options s).log) := by
  have h : p.RangeIterator d ctx start stop options s
      = ⟨(none, some e), s,
          [Event.getReadBackend ctx, Event.checkValidRangeIterationKeys start stop]⟩ := by
    simp [primaryKeyIndex.RangeIterator, hr, hc]
  refine ⟨h, ?_, ?_, ?_, ?_⟩ <;> simp [h]

/-- C8 (upper-bound kind of a range). When the read backend resolves, the pair of
bounds is valid and both bounds encode, `RangeIterator` returns the range iterator
built over the commitment store from the bytes `EncodeKey(start)` and `EncodeKey(end)`
with a flag `fullEndKey` that is `true` exactly when the end tuple has as many values as
the index has fields; for every shorter end tuple, the empty one included, it is
`false`. The iterator is constructed once, after both encodings. -/
theorem RangeIterator_upper_bound_kind (d : Pkg A V E O I) (p : primaryKeyIndex C V M E)
    (ctx : C) (start stop : List V) (options : O) (s : Stores E) (rb : ReadBackend)
    (startBz endBz : Bytes)
    (hr : p.getReadBackend ctx = .ok rb)
    (hc : p.CheckValidRangeIterationKeys start stop = none)
    (hs : p.EncodeKey start = .ok startBz)
    (he : p.EncodeKey stop = .ok endBz) :
    ∃ fullEndKey : Bool,
      p.RangeIterator d ctx start stop options s
        = ⟨d.rangeIterator s.commitment startBz endBz fullEndKey options, s,
            [Event.getReadBackend ctx, Event.checkValidRangeIterationKeys start stop,
              Event.encodeKey start, Event.encodeKey stop,
              Event.newRangeIterator startBz endBz fullEndKey options]⟩ ∧
      (fullEndKey = true ↔ stop.length = p.GetFieldNames.length) ∧
      (stop.length < p.GetFieldNames.length → fullEndKey = false) ∧
      (stop = [] → 0 < p.GetFieldNames.length → fullEndKey = false) := by
  refine ⟨decide (p.GetFieldNames.length = stop.length), ?_, ?_, ?_, ?_⟩
  · simp [primaryKeyIndex.RangeIterator, hr, hc, hs, he]
  · simp [eq_comm]
  · intro hlt
    simp
    omega
  · intro hnil hpos
    subst hnil
    have hne : p.GetFieldNames.length ≠ 0 := by omega
    simpa using hne

/-- C9 (resolution and encoding errors propagate unchanged from the reads). For each
of `Has`, `Get`, `PrefixIterator` and `RangeIterator`: if the resolution of the read
backend returns the error `e`, the operation returns `e` (with `found = false`,
respectively a `nil` iterator) and the resolution is its only call (no codec call, no
store access); if the resolution succeeds and `EncodeKey` returns the error `e` on the
key (for `RangeIterator`: on the start bound, or on the end bound after the start
bound encoded, the pair of bounds having passed validation), the operation returns
`e` likewise and its calls end with that encoding, so the commitment store is not read
and no iterator is built. The stores are as they were in every case. -/
theorem read_operations_propagate_errors (d : Pkg A V E O I) (p : primaryKeyIndex C V M E)
    (ctx : C) (s : Stores E) (e : E) :
    (p.getReadBackend ctx = .error e →
        (∀ k, p.Has d ctx k s = ⟨(false, some e), s, [Event.getReadBackend ctx]⟩) ∧
        (∀ msg k, p.Get d ctx msg k s = ⟨(false, some e, msg), s, [Event.getReadBackend ctx]⟩) ∧
        (∀ pk o, p.PrefixIterator d ctx pk o s = ⟨(none, some e), s, [Event.getReadBackend ctx]⟩) ∧
        (∀ a b o, p.RangeIterator d ctx a b o s
          = ⟨(none, some e), s, [Event.getReadBackend ctx]⟩)) ∧
      (∀ rb, p.getReadBackend ctx = .ok rb →
        (∀ k, p.EncodeKey (d.ValuesOf k) = .error e →
          p.Has d ctx k s
            = ⟨(false, some e), s, [Event.getReadBackend ctx, Event.encodeKey (d.ValuesOf k)]⟩) ∧
        (∀ msg k, p.EncodeKey (d.ValuesOf k) = .error e →
          p.Get d ctx msg k s
            = ⟨(false, some e, msg), s,
                [Event.getReadBackend ctx, Event.encodeKey (d.ValuesOf k)]⟩) ∧
        (∀ pk o, p.EncodeKey pk = .error e →
          p.PrefixIterator d ctx pk o s
            = ⟨(none, some e), s, [Event.getReadBackend ctx, Event.encodeKey pk]⟩) ∧
        (∀ a b o, p.CheckValidRangeIterationKeys a b = none → p.EncodeKey a = .error e →
          p.RangeIterator d ctx a b o s
            = ⟨(none, some e), s,
                [Event.getReadBackend ctx, Event.checkValidRangeIterationKeys a b,
                  Event.encodeKey a]⟩) ∧
        (∀ a b o aBz, p.CheckValidRangeIterationKeys a b = none → p.EncodeKey a = .ok aBz →
          p.EncodeKey b = .error e →
          p.RangeIterator d ctx a b o s
            = ⟨(none, some e), s,
                [Event.getReadBackend ctx, Event.checkValidRangeIterationKeys a b,
                  Event.encodeKey a, Event.encodeKey b]⟩)) := by
  constructor
  · intro hr
    refine ⟨?_, ?_, ?_, ?_⟩
    · intro k
      simp [primaryKeyIndex.Has, hr]
    · intro msg k
      simp [primaryKeyIndex.Get, hr]
    · intro pk o
      simp [primaryKeyIndex.PrefixIterator, hr]
    · intro a b o
      simp [primaryKeyIndex.RangeIterator, hr]
  · intro rb hr
    refine ⟨?_, ?_, ?_, ?_, ?_⟩
    · intro k hk
      simp [primaryKeyIndex.Has, hr, hk]
    · intro msg k hk
      simp [primaryKeyIndex.Get, primaryKeyIndex.get, hr, hk]
    · intro pk o hk
      simp [primaryKeyIndex.PrefixIterator, hr, hk]
    · intro a b o hc hk
      simp [primaryKeyIndex.RangeIterator, hr, hc, hk]
    · intro a b o aBz hc ha hk
      simp [primaryKeyIndex.RangeIterator, hr, hc, ha, hk]

end reads

/-! ## The statements on a concrete table -/

/-- C1 on the demo table: the record under `[3, 3]` is present and the second indexer fails
on it with error 4. -/
theorem DeleteByKey_indexer_error_is_atomic_witness :
    demoIndex.EncodeKey (demoPkg.ValuesOf [3, 3]) = .ok [3, 3] ∧
      demoStores.commitment.Get [3, 3] = .ok (some [8]) ∧
      Event.onDelete 1 [3, 3, 8] (some 4) ∈ (demoIndex.DeleteByKey demoPkg 1 [3, 3] demoStores).log ∧
      (demoIndex.DeleteByKey demoPkg 1 [3, 3] demoStores).val = some 4 ∧
      (demoIndex.DeleteByKey demoPkg 1 [3, 3] demoStores).state = demoStores :=
  ⟨rfl, rfl, by decide,
    (DeleteByKey_indexer_error_is_atomic demoPkg demoIndex 1 [3, 3] demoStores [3, 3] [8] 1
      [3, 3, 8] 4 rfl rfl (by decide)).1,
    (DeleteByKey_indexer_error_is_atomic demoPkg demoIndex 1 [3, 3] demoStores [3, 3] [8] 1
      [3, 3, 8] 4 rfl rfl (by decide)).2.2.1⟩

/-- C2 on the demo table: nothing is stored under `[5, 5]`. -/
theorem DeleteByKey_absent_key_is_noop_witness :
    demoIndex.EncodeKey (demoPkg.ValuesOf [5, 5]) = .ok [5, 5] ∧
      demoStores.commitment.Get [5, 5] = .ok none ∧
      demoIndex.DeleteByKey demoPkg 1 [5, 5] demoStores
        = ⟨none, demoStores,
            [Event.getBackend 1, Event.encodeKey [5, 5], Event.storeGet [5, 5]]⟩ :=
  ⟨rfl, rfl,
    (DeleteByKey_absent_key_is_noop demoPkg demoIndex 1 [5, 5] demoStores
      ⟨ReadBackend.handle, none⟩ [5, 5] rfl rfl rfl).1⟩

/-- C3 on the demo table: the hook sink of context 2 rejects the record under `[9, 9]`. -/
theorem DeleteByKey_hook_error_aborts_before_writer_witness :
    demoStores.commitment.Get [9, 9] = .ok (some [8]) ∧
      demoIndex.Unmarshal [9, 9] [8] [] = ([9, 9, 8], none) ∧
      demoHooks.OnDelete [9, 9, 8] = some 6 ∧
      demoIndex.DeleteByKey demoPkg 2 [9, 9] demoStores
        = ⟨some 6, demoStores,
            lookupCalls 2 [9, 9] [9, 9] [8] ++ [Event.hookOnDelete [9, 9, 8] (some 6)]⟩ :=
  ⟨rfl, rfl, rfl,
    ((DeleteByKey_hook_error_aborts_before_writer demoPkg demoIndex 2 [9, 9] demoStores
      ⟨ReadBackend.handle, some demoHooks⟩ [9, 9] [8] [9, 9, 8] rfl rfl rfl rfl).1
        demoHooks 6 rfl rfl).1⟩

/-- C4 on the demo table: the delete of the record under `[1, 10]` goes through. -/
theorem DeleteByKey_removes_entry_witness :
    demoStores.commitment.Get [1, 10] = .ok (some [7]) ∧
      (demoIndex.DeleteByKey demoPkg 1 [1, 10] demoStores).val = none ∧
      (demoIndex.DeleteByKey demoPkg 1 [1, 10] demoStores).state = demoStoresAfter ∧
      demoStoresAfter.commitment.Get [1, 10] = .ok none :=
  ⟨rfl,
    (DeleteByKey_removes_entry demoPkg demoIndex 1 [1, 10] demoStores demoStoresAfter
      ⟨ReadBackend.handle, none⟩ [1, 10] [7] [1, 10, 7] rfl rfl rfl rfl (by simp)
      (by simp [demoIndex, demoIndexerA, demoIndexerB]) rfl).1,
    (DeleteByKey_removes_entry demoPkg demoIndex 1 [1, 10] demoStores demoStoresAfter
      ⟨ReadBackend.handle, none⟩ [1, 10] [7] [1, 10, 7] rfl rfl rfl rfl (by simp)
      (by simp [demoIndex, demoIndexerA, demoIndexerB]) rfl).2.1,
    (DeleteByKey_removes_entry demoPkg demoIndex 1 [1, 10] demoStores demoStoresAfter
      ⟨ReadBackend.handle, none⟩ [1, 10] [7] [1, 10, 7] rfl rfl rfl rfl (by simp)
      (by simp [demoIndex, demoIndexerA, demoIndexerB]) rfl).2.2.1⟩

/-- C5 on the demo table: the delete of the record under `[1, 10]`, accepted by the hook
sink of context 2, calls both indexers in order and writes once. -/
theorem DeleteByKey_fan_out_order_witness :
    demoStores.commitment.Get [1, 10] = .ok (some [7]) ∧
      demoHooks.OnDelete [1, 10, 7] = none ∧
      (demoIndex.DeleteByKey demoPkg 2 [1, 10] demoStores).log
        = lookupCalls 2 [1, 10] [1, 10] [7]
          ++ hookCalls ⟨ReadBackend.handle, some demoHooks⟩ [1, 10, 7]
          ++ [Event.newWriter, Event.writerDelete [1, 10]]
          ++ onDeleteCalls [1, 10, 7] demoIndex.indexers.length
          ++ [Event.write [WriteOp.delete [1, 10]] (onDeleteOps [1, 10, 7] demoIndex.indexers)
                (demoIndex.DeleteByKey demoPkg 2 [1, 10] demoStores).val, Event.close] :=
  ⟨rfl, rfl,
    ((DeleteByKey_fan_out_order demoPkg demoIndex 2 [1, 10] demoStores
      ⟨ReadBackend.handle, some demoHooks⟩ [1, 10] [7] [1, 10, 7] rfl rfl rfl rfl
      (by simp [demoHooks])).1 (by simp [demoIndex, demoIndexerA, demoIndexerB])).2⟩

/-- C6 on the demo table: nothing is stored under `[5, 5]`. -/
theorem Has_Get_absence_is_not_an_error_witness :
    demoStores.commitment.Get [5, 5] = .ok none ∧
      demoIndex.Has demoPkg 1 [5, 5] demoStores
        = ⟨(false, none), demoStores,
            [Event.getReadBackend 1, Event.encodeKey [5, 5], Event.storeHas [5, 5]]⟩ ∧
      demoIndex.Get demoPkg 1 [42] [5, 5] demoStores
        = ⟨(false, none, [42]), demoStores,
            [Event.getReadBackend 1, Event.encodeKey [5, 5], Event.storeGet [5, 5]]⟩ :=
  ⟨rfl,
    ((Has_Get_absence_is_not_an_error demoPkg demoIndex 1 [5, 5] [42] demoStores
      ReadBackend.handle [5, 5] rfl rfl).1 rfl).1,
    ((Has_Get_absence_is_not_an_error demoPkg demoIndex 1 [5, 5] [42] demoStores
      ReadBackend.handle [5, 5] rfl rfl).1 rfl).2.1⟩

/-- C7 on the demo table: a start bound of three values is not a valid range. -/
theorem RangeIterator_validates_before_encoding_witness :
    demoIndex.CheckValidRangeIterationKeys [1, 2, 3] [1] = some 2 ∧
      demoIndex.RangeIterator demoPkg 1 [1, 2, 3] [1] 0 demoStores
        = ⟨(none, some 2), demoStores,
            [Event.getReadBackend 1, Event.checkValidRangeIterationKeys [1, 2, 3] [1]]⟩ :=
  ⟨rfl,
    (RangeIterator_validates_before_encoding demoPkg demoIndex 1 [1, 2, 3] [1] 0 demoStores
      ReadBackend.handle 2 rfl rfl).1⟩

/-- C8 on the demo table: an end bound with both fields. -/
theorem RangeIterator_upper_bound_kind_witness :
    demoIndex.CheckValidRangeIterationKeys [1] [1, 20] = none ∧
      ∃ fullEndKey : Bool,
        demoIndex.RangeIterator demoPkg 1 [1] [1, 20] 0 demoStores
          = ⟨demoPkg.rangeIterator demoStores.commitment [1] [1, 20] fullEndKey 0, demoStores,
              [Event.getReadBackend 1, Event.checkValidRangeIterationKeys [1] [1, 20],
                Event.encodeKey [1], Event.encodeKey [1, 20],
                Event.newRangeIterator [1] [1, 20] fullEndKey 0]⟩ ∧
        (fullEndKey = true ↔ [1, 20].length = demoIndex.GetFieldNames.length) :=
  ⟨rfl,
    (RangeIterator_upper_bound_kind demoPkg demoIndex 1 [1] [1, 20] 0 demoStores
      ReadBackend.handle [1] [1, 20] rfl rfl rfl rfl).imp
      (fun _ h => ⟨h.1, h.2.1⟩)⟩

/-- C9 on the demo table: context 0 resolves to no backend, and the value 300 does not
encode. -/
theorem read_operations_propagate_errors_witness :
    demoIndex.getReadBackend 0 = .error 5 ∧
      demoIndex.Has demoPkg 0 [1, 10] demoStores
        = ⟨(false, some 5), demoStores, [Event.getReadBackend 0]⟩ ∧
      demoIndex.EncodeKey [1, 300] = .error 1 ∧
      demoIndex.PrefixIterator demoPkg 1 [1, 300] 0 demoStores
        = ⟨(none, some 1), demoStores, [Event.getReadBackend 1, Event.encodeKey [1, 300]]⟩ :=
  ⟨rfl,
    ((read_operations_propagate_errors demoPkg demoIndex 0 demoStores 5).1 rfl).1 [1, 10],
    rfl,
    ((read_operations_propagate_errors demoPkg demoIndex 1 demoStores 1).2
      ReadBackend.handle rfl).2.2.1 [1, 300] 0 rfl⟩

/-- C10 on the demo table: the bytes stored under `[6, 6]` do not decode. -/
theorem DeleteByKey_undecodable_record_is_kept_witness :
    demoStores.commitment.Get [6, 6] = .ok (some [255]) ∧
      (demoIndex.Unmarshal [6, 6] [255] []).2 = some 3 ∧
      demoIndex.DeleteByKey demoPkg 2 [6, 6] demoStores
        = ⟨some 3, demoStores, lookupCalls 2 [6, 6] [6, 6] [255]⟩ ∧
      (demoIndex.DeleteByKey demoPkg 2 [6, 6] demoStores).state.commitment.Get [6, 6]
        = .ok (some [255]) :=
  ⟨rfl, rfl,
    (DeleteByKey_undecodable_record_is_kept demoPkg demoIndex 2 [6, 6] demoStores
      ⟨ReadBackend.handle, some demoHooks⟩ [6, 6] [255] 3 rfl rfl rfl rfl).1,
    (DeleteByKey_undecodable_record_is_kept demoPkg demoIndex 2 [6, 6] demoStores
      ⟨ReadBackend.handle, some demoHooks⟩ [6, 6] [255] 3 rfl rfl rfl rfl).2.2.2.2⟩

end ormtable
